import Mathlib

/-
Verification of the TXray transaction-analysis pipeline.

This file shallowly embeds the pipeline code (graph/nodes.ts, graph/workflow.ts,
tools/rpc.ts, tools/tenderly-trace.ts, mev/patterns.ts, server.ts, cli.ts) into
Lean 4 and proves or refutes the specified properties.  JavaScript values are
modelled as follows: strings are `String`, arrays are `List`, optional or
nullable fields are `Option`, JS objects used as string-keyed maps are
association lists, bigints are `Int` with explicit parse failure as `Option`.
JS truthiness on strings (empty string is falsy) is modelled explicitly by the
`jsOr` / `strTruthy` helpers below.
-/

set_option maxHeartbeats 1000000

namespace TXray

/-- JS string truthiness: the empty string is falsy, every other string truthy. -/
def strTruthy (s : String) : Bool := s ≠ ""

/-- Truthiness of a possibly-absent string (`undefined`/`null` are falsy). -/
def optTruthy (o : Option String) : Bool :=
  match o with
  | none => false
  | some s => strTruthy s

/-- JS `a || b` on a possibly-absent string with a string default. -/
def jsOr (o : Option String) (d : String) : String :=
  match o with
  | none => d
  | some s => if s = "" then d else s

/-- ASCII lower-casing of a single character, as JS `toLowerCase` acts on the
ASCII range (all addresses in this code base are ASCII hex strings). -/
def jsCharToLower (c : Char) : Char :=
  if 65 ≤ c.toNat ∧ c.toNat ≤ 90 then Char.ofNat (c.toNat + 32) else c

/-- JS `String.prototype.toLowerCase` restricted to the ASCII range. -/
def jsToLower (s : String) : String := String.mk (s.data.map jsCharToLower)

/-- JS `s.startsWith(pre)` (identical to the standard library behaviour on
the ASCII strings of this code base, stated over the character list so that
it evaluates inside the kernel). -/
def jsStartsWith (s pre : String) : Bool :=
  decide (s.data.take pre.data.length = pre.data)

/-- JS `s.trim()`: strip leading and trailing whitespace. -/
def jsTrim (s : String) : String :=
  String.mk (((s.data.dropWhile Char.isWhitespace).reverse.dropWhile
    Char.isWhitespace).reverse)

/- ------------------------------------------------------------------
   tools/rpc.ts : receipt logs and ERC-20 Transfer extraction
   ------------------------------------------------------------------ -/

/-- A receipt log entry (`receipt.logs[i]`), as used by `extractTokenFlows`. -/
structure Log where
  address : String
  topics : List String
  data : String
deriving Repr, DecidableEq

/-- A token flow record (types/index.ts `TokenFlow`); `from`/`to` are renamed
`fromAddr`/`toAddr` because `from` is a Lean keyword. -/
structure TokenFlow where
  token : String
  fromAddr : String
  toAddr : String
  amount : String
  symbol : Option String := none
  name : Option String := none
  decimals : Option String := none
deriving Repr, DecidableEq

/-- The ERC-20 `Transfer(address,address,uint256)` event signature hash
(tools/rpc.ts `TRANSFER_TOPIC`). -/
def TRANSFER_TOPIC : String :=
  "0xddf252ad1be2c89b69c2b068fc378daa952ba7f163c4a11628f55a4df523b3ef"

/-- tools/rpc.ts `extractTokenFlows`: loop over `receipt.logs`, pushing a flow
for each log whose first topic is the Transfer signature and which has at
least three topics.  `log.topics[0]` on an empty topic list is `undefined`,
which never equals the topic string; this is modelled by `headD ""`. -/
def extractTokenFlows : List Log → List TokenFlow
  | [] => []
  | log :: rest =>
    if log.topics.headD "" = TRANSFER_TOPIC ∧ 3 ≤ log.topics.length then
      { token := log.address
        fromAddr := "0x" ++ (log.topics.getD 1 "").drop 26
        toAddr := "0x" ++ (log.topics.getD 2 "").drop 26
        amount := log.data } :: extractTokenFlows rest
    else
      extractTokenFlows rest

/-- Predicate from the claim wording: a log is a qualifying Transfer log when
its first topic is the Transfer signature hash and it carries at least three
topics. -/
def isTransferLog (log : Log) : Bool :=
  decide (log.topics.headD "" = TRANSFER_TOPIC ∧ 3 ≤ log.topics.length)

/-- Flow built from a qualifying Transfer log, per the claim wording: token is
the emitting contract, from/to are the last 20 bytes (40 hex characters) of
topics 1 and 2, amount is the raw data field unchanged. -/
def mkTransferFlow (log : Log) : TokenFlow :=
  { token := log.address
    fromAddr := "0x" ++ (log.topics.getD 1 "").drop 26
    toAddr := "0x" ++ (log.topics.getD 2 "").drop 26
    amount := log.data }

/- ------------------------------------------------------------------
   tools/tenderly.ts `CallTrace` and the call-trace subsystem
   (graph/workflow.ts flattenCallTrace, tools/tenderly-trace.ts
   extractAllCallsFromTrace)
   ------------------------------------------------------------------ -/

/-- tools/tenderly.ts `CallTrace`: a recursive call-tree node.  `from`/`to`
are renamed `fromAddr`/`toAddr` (Lean keywords).  The optional `calls` array
is modelled as a plain list: every embedded consumer (`flattenCallTrace`,
`extractAllCallsFromTrace`) only iterates over it, and an absent array
behaves exactly like an empty one there.  The Tenderly-specific decoded
fields (`function`, `decodedInput`, ...) are opaque passthrough values never
inspected by the embedded code and are omitted. -/
inductive CallTrace where
  | mk (type : Option String) (fromAddr toAddr : String)
       (value gas gasUsed input output error : Option String)
       (calls : List CallTrace)

/-- types/index.ts `FlattenedCall` (without the opaque `decodedInput`
passthrough). -/
structure FlattenedCall where
  depth : Nat
  index : Nat
  type : String
  fromAddr : String
  toAddr : String
  value : String
  gas : Option String
  gasUsed : Option String
  input : Option String
  functionSelector : Option String
deriving Repr, DecidableEq

/-- The selector prefix `call.input?.slice(0, 10) || ''` computed by
`flattenCallTrace`. -/
def selOf (input : Option String) : String :=
  match input with
  | some s => if s.take 10 = "" then "" else s.take 10
  | none => ""

/-- The entry `flattenCallTrace` pushes for one node, given its depth and
running index (graph/workflow.ts lines 79-92). -/
def entryOf (d i : Nat) (c : CallTrace) : FlattenedCall :=
  match c with
  | .mk t f toA v g gu inp _ _ _ =>
    { depth := d, index := i
      type := jsOr t "CALL"
      fromAddr := f, toAddr := toA
      value := jsOr v "0"
      gas := g, gasUsed := gu, input := inp
      functionSelector := if selOf inp ≠ "0x" then some (selOf inp) else none }

mutual
/-- graph/workflow.ts `flattenCallTrace`: pre-order flattening of a call
tree.  The mutable `startIndex` counter is modelled by threading `n` through
and returning the updated counter. -/
def flattenCallTrace (c : CallTrace) (depth : Nat) (n : Nat) :
    List FlattenedCall × Nat :=
  match c with
  | .mk t f toA v g gu inp o e cs =>
    let entry := entryOf depth n (.mk t f toA v g gu inp o e cs)
    let rest := flattenCallTraceList cs (depth + 1) (n + 1)
    (entry :: rest.1, rest.2)

/-- The `for (const sub of call.calls)` loop inside `flattenCallTrace`. -/
def flattenCallTraceList (cs : List CallTrace) (depth : Nat) (n : Nat) :
    List FlattenedCall × Nat :=
  match cs with
  | [] => ([], n)
  | c :: rest =>
    let r := flattenCallTrace c depth n
    let rs := flattenCallTraceList rest depth r.2
    (r.1 ++ rs.1, rs.2)
end

mutual
/-- tools/tenderly-trace.ts `extractAllCallsFromTrace`: pre-order listing of
all nodes of a call tree (the accumulating array argument is modelled by
returning the list). -/
def extractAllCallsFromTrace (c : CallTrace) : List CallTrace :=
  match c with
  | .mk t f toA v g gu inp o e cs =>
    .mk t f toA v g gu inp o e cs :: extractAllCallsFromTraceList cs

/-- The `for (const subcall of call.calls)` loop of
`extractAllCallsFromTrace`. -/
def extractAllCallsFromTraceList (cs : List CallTrace) : List CallTrace :=
  match cs with
  | [] => []
  | c :: rest => extractAllCallsFromTrace c ++ extractAllCallsFromTraceList rest
end

mutual
/-- Number of nodes of a call tree (specification-side measure). -/
def CallTrace.size (c : CallTrace) : Nat :=
  match c with
  | .mk _ _ _ _ _ _ _ _ _ cs => 1 + CallTrace.sizeList cs

/-- Number of nodes of a forest of call trees. -/
def CallTrace.sizeList (cs : List CallTrace) : Nat :=
  match cs with
  | [] => 0
  | c :: rest => CallTrace.size c + CallTrace.sizeList rest
end

mutual
/-- Specification-side pre-order traversal pairing each node with its depth
(the length of the path from the root: the root gets `d`, its children
`d + 1`, and so on). -/
def preorder (c : CallTrace) (d : Nat) : List (Nat × CallTrace) :=
  match c with
  | .mk t f toA v g gu inp o e cs =>
    (d, .mk t f toA v g gu inp o e cs) :: preorderList cs (d + 1)

/-- Pre-order traversal of a forest of call trees at a fixed depth. -/
def preorderList (cs : List CallTrace) (d : Nat) : List (Nat × CallTrace) :=
  match cs with
  | [] => []
  | c :: rest => preorder c d ++ preorderList rest d
end

/-- Uncurried form of `entryOf` used to state the flattening
characterisation. -/
def entryAt (p : Nat × CallTrace) (i : Nat) : FlattenedCall := entryOf p.1 i p.2

/- Tree shapes and the stack-based rebuild (claim C4).  The rebuild procedure
itself is not part of the repository; it is modelled from the spec: a
stack-based rebuild that attaches each entry as a child of the nearest
preceding entry of smaller depth. -/

/-- A pure tree shape: what remains of a call tree after forgetting all node
data. -/
inductive Shape where
  | node : List Shape → Shape
deriving Repr

mutual
/-- The shape of a call tree. -/
def shapeOf (c : CallTrace) : Shape :=
  match c with
  | .mk _ _ _ _ _ _ _ _ _ cs => .node (shapeOfList cs)

/-- The shapes of a forest of call trees. -/
def shapeOfList (cs : List CallTrace) : List Shape :=
  match cs with
  | [] => []
  | c :: rest => shapeOf c :: shapeOfList rest
end

mutual
/-- The pre-order depth sequence of a shape: the root contributes `d`, its
children are listed at `d + 1`. -/
def depthSeq (s : Shape) (d : Nat) : List Nat :=
  match s with
  | .node cs => d :: depthSeqs cs (d + 1)

/-- The pre-order depth sequence of a forest of shapes. -/
def depthSeqs (cs : List Shape) (d : Nat) : List Nat :=
  match cs with
  | [] => []
  | c :: rest => depthSeq c d ++ depthSeqs rest d
end

/-- An entry of the rebuild stack: the depth of a still-open node together
with its already-completed children, oldest first. -/
abbrev StackEntry := Nat × List Shape

/-- Modelled from the spec: close the topmost open node of the rebuild stack
and attach it as the youngest child of the node below it (a closed root with
an empty stack below it is dropped; `closeAll` recovers it separately). -/
def attachTop : List StackEntry → Shape → List StackEntry
  | [], _ => []
  | (d2, cs2) :: st, s => (d2, cs2 ++ [s]) :: st

/-- Modelled from the spec: pop and close every open stack node whose depth
is at least the depth `d` of the incoming entry, so that the entry ends up
attached to the nearest preceding entry of smaller depth. -/
def collapse (st : List StackEntry) (d : Nat) : List StackEntry :=
  match st with
  | [] => []
  | (dtop, cs) :: st2 =>
    if d ≤ dtop then collapse (attachTop st2 (Shape.node cs)) d
    else (dtop, cs) :: st2
termination_by st.length
decreasing_by cases st2 <;> simp [attachTop]

/-- Modelled from the spec: process one entry of the depth sequence — close
all open nodes of depth at least `d`, then push the entry as a new open node
with no children yet. -/
def stepEntry (st : List StackEntry) (d : Nat) : List StackEntry :=
  (d, []) :: collapse st d

/-- Modelled from the spec: after all entries are processed, close the
remaining open nodes bottom-up; the final closed node is the rebuilt root. -/
def closeAll (st : List StackEntry) : Option Shape :=
  match st with
  | [] => none
  | (_, cs) :: st2 =>
    match st2 with
    | [] => some (Shape.node cs)
    | e :: rest => closeAll (attachTop (e :: rest) (Shape.node cs))
termination_by st.length
decreasing_by cases e <;> simp [attachTop]

/-- Modelled from the spec: the stack-based rebuild of a tree shape from the
pre-order depth sequence produced by flattening ("attach each entry as a
child of the nearest preceding entry of smaller depth"). -/
def rebuildShape (ds : List Nat) : Option Shape :=
  closeAll (ds.foldl stepEntry [])

/-- The portion of the rebuild stack still open after processing exactly the
entries of one subtree: the rightmost spine of that subtree (proof device
for claim C4). -/
def openSpine : Shape → Nat → List StackEntry
  | .node cs, d =>
    match h : cs.getLast? with
    | none => [(d, [])]
    | some lastc => openSpine lastc (d + 1) ++ [(d, cs.dropLast)]
termination_by s _ => sizeOf s
decreasing_by
  have hm : lastc ∈ cs := List.mem_of_mem_getLast? h
  have := List.sizeOf_lt_of_mem hm
  simp
  omega

/- ------------------------------------------------------------------
   Shared helpers for JS collections and numbers
   ------------------------------------------------------------------ -/

/-- Insertion-ordered de-duplication, as `[...new Set(xs)]` produces. -/
def dedupFirst : List String → List String := go []
where
  go (seen : List String) : List String → List String
    | [] => []
    | x :: xs => if x ∈ seen then go seen xs else x :: go (x :: seen) xs

/-- JS `x || undefined` on an optional string: empty strings collapse to
`undefined`. -/
def jsOrNone (o : Option String) : Option String :=
  match o with
  | none => none
  | some s => if s = "" then none else some s

/-- JS `s.includes(pat)` (substring test). -/
def jsIncludes (s pat : String) : Bool :=
  (List.range (s.data.length + 1)).any
    (fun i => (s.data.drop i).take pat.data.length = pat.data)

/-- ASCII upper-casing of one character (JS `toUpperCase` on ASCII data). -/
def jsCharToUpper (c : Char) : Char :=
  if 97 ≤ c.toNat ∧ c.toNat ≤ 122 then Char.ofNat (c.toNat - 32) else c

/-- JS `String.prototype.toUpperCase` restricted to the ASCII range. -/
def jsToUpper (s : String) : String := String.mk (s.data.map jsCharToUpper)

/-- Value of one hexadecimal digit. -/
def hexVal (c : Char) : Option Nat :=
  if 48 ≤ c.toNat ∧ c.toNat ≤ 57 then some (c.toNat - 48)
  else if 97 ≤ c.toNat ∧ c.toNat ≤ 102 then some (c.toNat - 87)
  else if 65 ≤ c.toNat ∧ c.toNat ≤ 70 then some (c.toNat - 55)
  else none

/-- Parse a non-empty run of hexadecimal digits. -/
def parseHexNat : List Char → Option Nat
  | [] => none
  | cs => go cs 0
where
  go : List Char → Nat → Option Nat
    | [], acc => some acc
    | c :: rest, acc =>
      match hexVal c with
      | some v => go rest (acc * 16 + v)
      | none => none

/-- Parse a non-empty run of decimal digits. -/
def parseDecNat : List Char → Option Nat
  | [] => none
  | cs => go cs 0
where
  go : List Char → Nat → Option Nat
    | [], acc => some acc
    | c :: rest, acc =>
      if 48 ≤ c.toNat ∧ c.toNat ≤ 57 then go rest (acc * 10 + (c.toNat - 48))
      else none

/-- JS `BigInt(string)`: whitespace-trimmed; the empty string is 0; `0x`
prefixes introduce hex; an optional leading minus introduces a negative
decimal; anything else throws (`none`).  (The rarely used `0o`/`0b` prefixes
and leading `+` are not produced by this code base and are modelled as
throwing.) -/
def jsBigInt (s : String) : Option Int :=
  let t := jsTrim s
  if t = "" then some 0
  else if jsStartsWith t "0x" || jsStartsWith t "0X" then
    (parseHexNat (t.drop 2).data).map Int.ofNat
  else if jsStartsWith t "-" then
    (parseDecNat (t.drop 1).data).map (fun n => -(n : Int))
  else (parseDecNat t.data).map Int.ofNat

/- ------------------------------------------------------------------
   Data model: transactions, internal transactions, traces, reports
   (types/index.ts)
   ------------------------------------------------------------------ -/

/-- types/index.ts `Transaction` (receipt logs inlined, as
`getTransactionDetails` copies them from the receipt). -/
structure Transaction where
  hash : String
  fromAddr : String
  toAddr : Option String
  value : String
  gasUsed : String
  gasPrice : String
  blockNumber : Nat
  input : String
  logs : List Log
deriving Repr, DecidableEq

/-- types/index.ts `InternalTransaction`, with the optional raw fields that
the Tenderly conversion and the explorer payload may carry. -/
structure InternalTx where
  fromAddr : String
  toAddr : String
  value : Option String
  type : Option String
  gas : Option String
  gasUsed : Option String
  input : Option String
  output : Option String
  error : Option String
  isError : Option String
deriving Repr, DecidableEq

/-- tools/tenderly.ts `TenderlySimulationResult`, reduced to the fields the
pipeline reads. -/
structure TenderlyResult where
  gasUsed : String
  status : Bool
  trace : List CallTrace

/-- types/index.ts verify result. -/
structure VerificationResult where
  passed : Bool
  issues : List String
deriving Repr, DecidableEq

/-- mev/patterns.ts `MEVPattern`; confidence is a percentage (the source
values 0.7, 0.3 and 1.0 become 70, 30 and 100), and the free-form `details`
object, which no embedded consumer inspects, is omitted. -/
structure MEVPattern where
  type : String
  confidence : Nat
deriving Repr, DecidableEq

/-- `technicalDetails` of a success report (graph/nodes.ts `outputNode`). -/
structure TechDetails where
  txHash : String
  blockNumber : Option Nat
  gasUsed : Option String
  fromAddr : Option String
  toAddr : Option (Option String)
  mevConfidence : Nat
deriving Repr, DecidableEq

/-- The final report built by `outputNode`; on the error path
`technicalDetails` is the empty object, modelled as `none`. -/
structure FinalReport where
  summary : String
  mevType : String
  steps : List String
  tokenFlows : List TokenFlow
  technicalDetails : Option TechDetails
  verification : Option VerificationResult
  callTraceExplanation : Option String
  tenderlyCallTrace : Option TenderlyResult
  etherscanInternalTxs : Option (List InternalTx)

/-- types/index.ts `CallTraceAddressInfo`: enrichment record for one
address; ABI entries are opaque to the embedded code and modelled as
strings. -/
structure CallTraceAddressInfo where
  label : Option String
  isContract : Bool
  abi : Option (List String) := none
  source : Option String := none
deriving Repr, DecidableEq

/-- types/index.ts `AnalysisState`: the shared run context.  Fields the
verified claims never read (decoded calls, address labels, contract
ABI/source, gas context) are omitted; they influence no modelled field. -/
structure AnalysisState where
  txHash : String
  chain : String
  rawTx : Option Transaction := none
  tokenFlows : Option (List TokenFlow) := none
  etherscanInternalTxs : Option (List InternalTx) := none
  tenderlyCallTrace : Option TenderlyResult := none
  internalTxs : Option (List InternalTx) := none
  callTraceEnrichment : Option (List (String × CallTraceAddressInfo)) := none
  flattenedCalls : Option (List FlattenedCall) := none
  callTraceExplanation : Option String := none
  draftExplanation : Option String := none
  verificationResult : Option VerificationResult := none
  finalReport : Option FinalReport := none
  error : Option String := none

/-- Progress event types (types/index.ts `ProgressEvent`); payloads are not
modelled, only the claim-relevant ordering of event types. -/
inductive Event where
  | rpc_done
  | etherscan_start
  | etherscan_done
  | tenderly_start
  | tenderly_done
  | calltrace_enrich_start
  | calltrace_enrich_done
  | calltrace_explain_start
  | calltrace_explain_done
  | draft_start
  | draft_done
  | verify_start
  | verify_done
  | done
deriving Repr, DecidableEq

/-- One run's external world: the outcome of every adapter and collaborator
call.  `none` for `rpcTx` means the mandatory ledger fetch throws; all other
adapters absorb their own failures inside tools/etherscan.ts,
tools/tenderly-trace.ts and tools/rpc.ts and surface `none`/`[]` sentinels,
exactly as those files return `null`/`[]` from their catch blocks.  The
RPC-versus-explorer fallback for token metadata is abstracted into one
resolved lookup per token. -/
structure Env where
  rpcTx : Option Transaction
  rpcErrMsg : String
  useTenderly : Bool
  tenderlyResult : Option TenderlyResult
  etherscanInternalTxs : List InternalTx
  tokenSymbol : String → Option String
  tokenName : String → Option String
  tokenDecimals : String → Option String
  enrichThrows : String → Bool
  addrLabel : String → Option String
  addrIsContract : String → Bool
  addrAbi : String → Option (List String)
  addrSource : String → Option String
  llmExplain : Option String
  explainErrMsg : String
  llmDraft : Option String
  draftErrMsg : String
  enableVerification : Bool
  llmVerify : Option String

/- ------------------------------------------------------------------
   mev/patterns.ts
   ------------------------------------------------------------------ -/

/-- One step of a JS `Map.set` on a string-keyed map of bigints. -/
def assocSet (m : List (String × Int)) (k : String) (v : Int) :
    List (String × Int) :=
  match m with
  | [] => [(k, v)]
  | (k2, v2) :: rest => if k2 = k then (k2, v) :: rest else (k2, v2) :: assocSet rest k v

/-- The net-flow accumulation loop of `detectArbitrage`; `none` models the
`BigInt(flow.amount)` conversion throwing. -/
def arbLoop (fromAddress : String) :
    List TokenFlow → List (String × Int) → Option (List (String × Int))
  | [], m => some m
  | f :: rest, m =>
    match jsBigInt f.amount with
    | none => none
    | some amount =>
      let token := jsToLower f.token
      let m1 := if jsToLower f.toAddr = fromAddress then
          assocSet m token (((m.lookup token).getD 0) + amount) else m
      let m2 := if jsToLower f.fromAddr = fromAddress then
          assocSet m1 token (((m1.lookup token).getD 0) - amount) else m1
      arbLoop fromAddress rest m2

/-- mev/patterns.ts `detectArbitrage`; the outer `Option` models an escaping
exception, the inner one the `null` result. -/
def detectArbitrage (tx : Transaction) (tokenFlows : List TokenFlow) :
    Option (Option MEVPattern) :=
  match arbLoop (jsToLower tx.fromAddr) tokenFlows [] with
  | none => none
  | some netFlows =>
    let hasProfit := netFlows.any (fun p => 0 < p.2)
    let uniqueTokens := (dedupFirst (tokenFlows.map (fun f => jsToLower f.token))).length
    if hasProfit ∧ 2 ≤ uniqueTokens then
      some (some { type := "arbitrage", confidence := 70 })
    else some none

/-- The short-circuiting `tokenFlows.some(f => BigInt(f.amount) > 10n ** 20n)`
of `detectSandwich`. -/
def someLargeAmount : List TokenFlow → Option Bool
  | [] => some false
  | f :: rest =>
    match jsBigInt f.amount with
    | none => none
    | some a => if (10 : Int) ^ 20 < a then some true else someLargeAmount rest

/-- mev/patterns.ts `detectSandwich` (the `&&` short-circuits, so fewer than
two flows never evaluate the amounts). -/
def detectSandwich (_tx : Transaction) (tokenFlows : List TokenFlow) :
    Option (Option MEVPattern) :=
  if tokenFlows.length < 2 then some none
  else
    match someLargeAmount tokenFlows with
    | none => none
    | some largeSwap =>
      if largeSwap then some (some { type := "sandwich", confidence := 30 })
      else some none

/-- Stable insertion of a pattern into a confidence-descending list, as the
JS comparator `b.confidence - a.confidence` sorts. -/
def insertByConf (a : MEVPattern) : List MEVPattern → List MEVPattern
  | [] => [a]
  | b :: rest =>
    if b.confidence < a.confidence then a :: b :: rest else b :: insertByConf a rest

/-- Stable sort by descending confidence. -/
def sortByConfDesc : List MEVPattern → List MEVPattern
  | [] => []
  | a :: rest => insertByConf a (sortByConfDesc rest)

/-- mev/patterns.ts `identifyMEVPattern`: try both detectors (both are
evaluated; an exception in either escapes), keep the non-null results, and
return the highest-confidence one, defaulting to `unknown`. -/
def identifyMEVPattern (tx : Transaction) (tokenFlows : List TokenFlow) :
    Option MEVPattern :=
  match detectArbitrage tx tokenFlows with
  | none => none
  | some arb =>
    match detectSandwich tx tokenFlows with
    | none => none
    | some sand =>
      match ([arb, sand].filterMap id) with
      | [] => some { type := "unknown", confidence := 100 }
      | p :: rest => some ((sortByConfDesc (p :: rest)).headD p)

/- ------------------------------------------------------------------
   graph/nodes.ts helper functions
   ------------------------------------------------------------------ -/

/-- The regular expression `/^\d+\.\s+(.+)/` of `extractSteps`, applied to
one line: one or more digits, a dot, at least one whitespace character, and
a non-empty remainder, which is captured. -/
def matchStep (line : String) : Option String :=
  let cs := line.data
  let digits := cs.takeWhile Char.isDigit
  let rest1 := cs.dropWhile Char.isDigit
  if digits.isEmpty then none
  else
    match rest1 with
    | '.' :: rest2 =>
      let ws := rest2.takeWhile Char.isWhitespace
      let rest3 := rest2.dropWhile Char.isWhitespace
      if ws.isEmpty ∨ rest3.isEmpty then none else some (String.mk rest3)
    | _ => none

/-- graph/nodes.ts `extractSteps`: numbered lines of the explanation. -/
def extractSteps (explanation : String) : List String :=
  (explanation.splitOn "\n").filterMap matchStep

/-- The Tenderly-to-internal-transaction conversion inside `extractNode`
(graph/nodes.ts lines 943-956); the opaque decoded fields are dropped. -/
def tenderlyTxOfCall (c : CallTrace) : InternalTx :=
  match c with
  | .mk t f toA v g gu inp o e _ =>
    { fromAddr := f, toAddr := toA
      value := some (jsOr v "0")
      type := t, gas := g, gasUsed := gu
      input := inp, output := o, error := e, isError := none }

/-- The trace-derived internal-transaction list of `extractNode`: the
flattened calls of `trace[0]` when a trace is present, else empty. -/
def traceDerivedCalls (t : Option TenderlyResult) : List InternalTx :=
  match t with
  | some tr =>
    match tr.trace with
    | c :: _ => (extractAllCallsFromTrace c).map tenderlyTxOfCall
    | [] => []
  | none => []

/-- graph/nodes.ts line 981, the fusion rule:
`tenderlyInternalTxs.length > 0 ? tenderlyInternalTxs : etherscanInternalTxs`. -/
def fuseInternalTxs (tenderlyInternalTxs etherscanInternalTxs : List InternalTx) :
    List InternalTx :=
  if 0 < tenderlyInternalTxs.length then tenderlyInternalTxs
  else etherscanInternalTxs

/-- The `formattedInternalTxs` mapping of `extractNode` (lines 1195-1203):
keep from/to/gas/gasUsed/isError, default value to `'0'` and type to
`'call'`, drop the rest. -/
def formatInternalTx (itx : InternalTx) : InternalTx :=
  { fromAddr := itx.fromAddr, toAddr := itx.toAddr
    value := some (jsOr itx.value "0")
    type := some (jsOr itx.type "call")
    gas := itx.gas, gasUsed := itx.gasUsed
    input := none, output := none, error := none
    isError := itx.isError }

/-- The per-flow token-metadata enrichment of `extractNode`: only the first
five unique token contracts are resolved; `|| undefined` collapses empty
strings. -/
def enrichFlow (env : Env) (first5 : List String) (f : TokenFlow) : TokenFlow :=
  if f.token ∈ first5 then
    { f with symbol := jsOrNone (env.tokenSymbol f.token)
             name := jsOrNone (env.tokenName f.token)
             decimals := jsOrNone (env.tokenDecimals f.token) }
  else f

/- ------------------------------------------------------------------
   graph/nodes.ts pipeline nodes
   ------------------------------------------------------------------ -/

/-- graph/nodes.ts `extractNode`.  The try/catch wraps the whole body; the
only call that can throw is the mandatory ledger fetch (every other adapter
absorbs failures internally), so `env.rpcTx = none` takes the catch branch.
Each node returns the updated state plus the progress events it emitted, in
order. -/
def extractNode (env : Env) (s : AnalysisState) : AnalysisState × List Event :=
  match env.rpcTx with
  | none =>
    ({ s with error := some ("Failed to extract transaction data: " ++ env.rpcErrMsg) }, [])
  | some rawTx =>
    let tokenFlows := extractTokenFlows rawTx.logs
    let tenderlyCallTrace : Option TenderlyResult :=
      if env.useTenderly then env.tenderlyResult else none
    let tenderlyEvents : List Event :=
      if env.useTenderly then [.tenderly_start, .tenderly_done] else [.tenderly_done]
    let tenderlyInternalTxs := traceDerivedCalls tenderlyCallTrace
    let internalTxs := fuseInternalTxs tenderlyInternalTxs env.etherscanInternalTxs
    let first5 := (dedupFirst (tokenFlows.map (fun f => f.token))).take 5
    let enrichedTokenFlows := tokenFlows.map (enrichFlow env first5)
    let formattedInternalTxs := internalTxs.map formatInternalTx
    ({ s with
        rawTx := some rawTx
        tokenFlows := some enrichedTokenFlows
        etherscanInternalTxs := some formattedInternalTxs
        tenderlyCallTrace := tenderlyCallTrace
        internalTxs := some formattedInternalTxs },
      [.rpc_done, .etherscan_start] ++ tenderlyEvents ++ [.etherscan_done])

/-- graph/nodes.ts `draftNode`: guard, `draft_start`, then MEV pattern
identification and the LLM call inside a try whose catch records a
`Failed to generate explanation` error. -/
def draftNode (env : Env) (s : AnalysisState) : AnalysisState × List Event :=
  match s.rawTx with
  | none => ({ s with error := some (jsOr s.error "No transaction data available") }, [])
  | some tx =>
    if optTruthy s.error then
      ({ s with error := some (jsOr s.error "No transaction data available") }, [])
    else
      match identifyMEVPattern tx (s.tokenFlows.getD []) with
      | none =>
        ({ s with error := some ("Failed to generate explanation: " ++
            "SyntaxError: Cannot convert string to a BigInt") }, [.draft_start])
      | some _ =>
        match env.llmDraft with
        | none =>
          ({ s with error := some ("Failed to generate explanation: " ++ env.draftErrMsg) },
            [.draft_start])
        | some text =>
          ({ s with draftExplanation := some text }, [.draft_start, .draft_done])

/-- The dash-stripping of one verify issue line:
`l.replace(/^-\s*/, '').trim()`. -/
def stripDash (l : String) : String :=
  jsTrim (if jsStartsWith l "-" then
    String.mk ((l.data.drop 1).dropWhile Char.isWhitespace)
  else l)

/-- graph/nodes.ts `verifyNode`: skip on error, missing draft or missing raw
transaction; a statically disabled stage returns a trivial pass; otherwise
parse the collaborator reply, whose failure is absorbed into a trivial
pass. -/
def verifyNode (env : Env) (s : AnalysisState) : AnalysisState × List Event :=
  if optTruthy s.error = false ∧ optTruthy s.draftExplanation ∧ s.rawTx.isSome then
    if env.enableVerification = false then
      ({ s with verificationResult := some { passed := true, issues := [] } }, [])
    else
      match env.llmVerify with
      | none =>
        ({ s with verificationResult := some { passed := true, issues := [] } },
          [.verify_start])
      | some reply =>
        let text := jsTrim reply
        let passed := jsStartsWith (jsToUpper text) "OK" || jsIncludes (jsToLower text) "no error"
        let issues := if passed then [] else
          ((text.splitOn "\n").filter (fun l => jsStartsWith (jsTrim l) "-")).map stripDash
        ({ s with verificationResult := some { passed := passed, issues := issues } },
          [.verify_start, .verify_done])
  else (s, [])

/-- The minimal error report `outputNode` builds on the error path: the
summary carries the recorded error, the pattern type is `unknown`, steps and
token flows are empty, and `technicalDetails` is the empty object. -/
def errorReportOf (s : AnalysisState) : FinalReport :=
  { summary := "Error: " ++ s.error.getD ""
    mevType := "unknown"
    steps := []
    tokenFlows := []
    technicalDetails := none
    verification := none
    callTraceExplanation := none
    tenderlyCallTrace := none
    etherscanInternalTxs := none }

/-- graph/nodes.ts `outputNode`.  On a truthy error it builds the minimal
error report; otherwise it dereferences `state.rawTx!` and calls
`identifyMEVPattern` outside any try, so a missing transaction or a bigint
conversion throw would escape the node — modelled as `none`. -/
def outputNode (s : AnalysisState) : Option (AnalysisState × List Event) :=
  if optTruthy s.error then
    some ({ s with finalReport := some (errorReportOf s) }, [.done])
  else
    match s.rawTx with
    | none => none
    | some tx =>
      match identifyMEVPattern tx (s.tokenFlows.getD []) with
      | none => none
      | some mevPattern =>
        some ({ s with finalReport := some ({
              summary := jsOr s.draftExplanation "No explanation generated"
              mevType := mevPattern.type
              steps := extractSteps (jsOr s.draftExplanation "")
              tokenFlows := s.tokenFlows.getD []
              technicalDetails := some
                { txHash := s.txHash
                  blockNumber := s.rawTx.map (fun t => t.blockNumber)
                  gasUsed := s.rawTx.map (fun t => t.gasUsed)
                  fromAddr := s.rawTx.map (fun t => t.fromAddr)
                  toAddr := s.rawTx.map (fun t => t.toAddr)
                  mevConfidence := mevPattern.confidence }
              verification := s.verificationResult
              callTraceExplanation := s.callTraceExplanation
              tenderlyCallTrace := s.tenderlyCallTrace
              etherscanInternalTxs := s.etherscanInternalTxs } : FinalReport) }, [.done])

/- ------------------------------------------------------------------
   graph/workflow.ts call-trace enrichment and explanation nodes
   ------------------------------------------------------------------ -/

/-- graph/workflow.ts `MAX_ADDRESSES_TO_ENRICH`. -/
def MAX_ADDRESSES_TO_ENRICH : Nat := 20

/-- The `calls` list `callTraceEnrichNode` works on, reduced to the
from/to address pairs (the only fields its consumers read). -/
def candidateCalls (s : AnalysisState) : List (String × String) :=
  match s.tenderlyCallTrace with
  | some t =>
    match t.trace with
    | c :: _ => (extractAllCallsFromTrace c).map (fun cc =>
        match cc with
        | .mk _ f toA _ _ _ _ _ _ _ => (f, toA))
    | [] => (s.internalTxs.getD []).map (fun itx => (itx.fromAddr, itx.toAddr))
  | none => (s.internalTxs.getD []).map (fun itx => (itx.fromAddr, itx.toAddr))

/-- graph/workflow.ts `extractUniqueAddressesFromCalls`: insertion-ordered
set of the truthy, lower-cased from/to addresses. -/
def extractUniqueAddressesFromCalls (calls : List (String × String)) : List String :=
  dedupFirst (calls.flatMap (fun c =>
    (if c.1 ≠ "" then [jsToLower c.1] else []) ++
    (if c.2 ≠ "" then [jsToLower c.2] else [])))

/-- The capped candidate set `toEnrich = addresses.slice(0, 20)`. -/
def cappedCandidates (s : AnalysisState) : List String :=
  (extractUniqueAddressesFromCalls (candidateCalls s)).take MAX_ADDRESSES_TO_ENRICH

/-- The explicit unknown sentinel written by the catch branch of the
enrichment loop. -/
def unknownSentinel : CallTraceAddressInfo := { label := none, isContract := false }

/-- Source-text truncation at the 30000-character budget, with the explicit
truncation marker. -/
def truncateSource (s : String) : String :=
  if 30000 < s.length then s.take 30000 ++ "\n/* truncated */" else s

/-- The record the enrichment loop binds for one address: the unknown
sentinel when the lookups throw, otherwise label, contract flag, and, only
for contracts, ABI plus truncated source. -/
def enrichRecordOf (env : Env) (addr : String) : CallTraceAddressInfo :=
  if env.enrichThrows addr then unknownSentinel
  else
    let isC := env.addrIsContract addr
    { label := jsOrNone (env.addrLabel addr)
      isContract := isC
      abi := if isC then env.addrAbi addr else none
      source := if isC then jsOrNone ((env.addrSource addr).map truncateSource) else none }

/-- The depth-0 wrapping of a flat internal-transaction list
(graph/workflow.ts lines 162-172), with the running map index `i`. -/
def wrapInternalTxs : List InternalTx → Nat → List FlattenedCall
  | [], _ => []
  | itx :: rest, i =>
    { depth := 0, index := i
      type := jsOr itx.type "CALL"
      fromAddr := itx.fromAddr, toAddr := itx.toAddr
      value := jsOr itx.value "0"
      gas := itx.gas, gasUsed := itx.gasUsed, input := itx.input
      functionSelector := none } :: wrapInternalTxs rest (i + 1)

/-- graph/workflow.ts `callTraceEnrichNode`. -/
def callTraceEnrichNode (env : Env) (s : AnalysisState) : AnalysisState × List Event :=
  if optTruthy s.error ∨ s.rawTx.isNone then (s, [])
  else
    let calls := candidateCalls s
    if calls.length = 0 then
      ({ s with flattenedCalls := some [], callTraceEnrichment := some [] }, [])
    else
      let toEnrich := cappedCandidates s
      let enrichment := toEnrich.map (fun a => (jsToLower a, enrichRecordOf env a))
      let flattenedCalls :=
        match s.tenderlyCallTrace with
        | some t =>
          match t.trace with
          | c :: _ => (flattenCallTrace c 0 0).1
          | [] => wrapInternalTxs (s.internalTxs.getD []) 0
        | none => wrapInternalTxs (s.internalTxs.getD []) 0
      ({ s with callTraceEnrichment := some enrichment
                flattenedCalls := some flattenedCalls },
        [.calltrace_enrich_start, .calltrace_enrich_done])

/-- graph/workflow.ts `callTraceExplainNode`: LLM explanation of the
flattened trace; collaborator failures are absorbed into a failure text. -/
def callTraceExplainNode (env : Env) (s : AnalysisState) : AnalysisState × List Event :=
  if optTruthy s.error ∨ s.rawTx.isNone then (s, [])
  else
    if (s.flattenedCalls.getD []).length = 0 then
      ({ s with callTraceExplanation := some "No call trace available." }, [])
    else
      match env.llmExplain with
      | some text =>
        ({ s with callTraceExplanation := some text },
          [.calltrace_explain_start, .calltrace_explain_done])
      | none =>
        ({ s with callTraceExplanation := some ("Failed to explain call trace: " ++ env.explainErrMsg) },
          [.calltrace_explain_start])

/- ------------------------------------------------------------------
   Pipeline wiring
   ------------------------------------------------------------------ -/

/-- The initial run state `analyzer.invoke({txHash, chain})`. -/
def initState (txHash : String) : AnalysisState :=
  { txHash := txHash, chain := "ethereum" }

/-- graph/workflow.ts `createMEVAnalyzer` plus `analyzeTx`: the compiled
graph runs extract → draft → verify → output over the shared state, with an
optional bound progress sink collecting the emitted events in order.  `none`
models an exception escaping the graph. -/
def runAnalysis (env : Env) (txHash : String) : Option (AnalysisState × List Event) :=
  let r1 := extractNode env (initState txHash)
  let r2 := draftNode env r1.1
  let r3 := verifyNode env r2.1
  match outputNode r3.1 with
  | none => none
  | some r4 => some (r4.1, r1.2 ++ r2.2 ++ r3.2 ++ r4.2)

/-- Modelled from the spec: the full pipeline wiring with the call-trace
enrichment and explanation stages between Extract and Draft.  The node
implementations are in src (graph/workflow.ts), but the graph wiring that
inserts them is not under src/; the stage order follows the canonical
sequence of the spec (section 4.5) and the repository SSE-event
documentation. -/
def runAnalysisFull (env : Env) (txHash : String) : Option (AnalysisState × List Event) :=
  let r1 := extractNode env (initState txHash)
  let r2 := callTraceEnrichNode env r1.1
  let r3 := callTraceExplainNode env r2.1
  let r4 := draftNode env r3.1
  let r5 := verifyNode env r4.1
  match outputNode r5.1 with
  | none => none
  | some r6 => some (r6.1, r1.2 ++ r2.2 ++ r3.2 ++ r4.2 ++ r5.2 ++ r6.2)

/- ------------------------------------------------------------------
   server.ts / cli.ts input validation
   ------------------------------------------------------------------ -/

/-- The decision the `/api/chat` handler (server.ts lines 49-55) and the CLI
(cli.ts lines 31-34) take on a submitted transaction hash: reject the input
with an input error, or start the analysis pipeline (which performs network
input/output). -/
inductive ChatAction where
  | rejectInput
  | analyze
deriving Repr, DecidableEq

/-- The guard `!txHash.startsWith('0x') || txHash.length !== 66` shared by
server.ts and cli.ts: rejection happens before `analyzeTx` is invoked, hence
before any network input/output. -/
def chatTxAction (txHash : String) : ChatAction :=
  if ¬ (jsStartsWith txHash "0x" ∧ txHash.length = 66) then .rejectInput
  else .analyze

/-- The transaction-hash format named by the spec: `0x` followed by exactly
64 hexadecimal characters. -/
def specTxHashFormat (s : String) : Bool :=
  jsStartsWith s "0x" && s.length = 66 &&
    (s.data.drop 2).all (fun c =>
      (48 ≤ c.toNat ∧ c.toNat ≤ 57) ∨ (97 ≤ c.toNat ∧ c.toNat ≤ 102) ∨
      (65 ≤ c.toNat ∧ c.toNat ≤ 70))

/-- First index of an event in a recorded trace. -/
def firstIdx (e : Event) (evs : List Event) : Option Nat := evs.indexOf? e

/-- Whether event `a` first occurs strictly before event `b` in the trace. -/
def eventBeforeB (a b : Event) (evs : List Event) : Bool :=
  match firstIdx a evs, firstIdx b evs with
  | some i, some j => i < j
  | _, _ => false

/- ------------------------------------------------------------------
   Concrete run data used by witnesses and counterexamples
   ------------------------------------------------------------------ -/

/-- A small concrete transaction with no receipt logs. -/
def tx0 : Transaction :=
  { hash := "0xh", fromAddr := "0xaaaa", toAddr := some "0xbbbb", value := "0"
    gasUsed := "21000", gasPrice := "1", blockNumber := 7, input := "0x", logs := [] }

/-- A one-node call trace whose addresses carry upper-case hex characters. -/
def call0 : CallTrace :=
  .mk (some "CALL") "0xAA" "0xBB" (some "0") none none none none none []

/-- A concrete Tenderly trace result wrapping `call0`. -/
def trace0 : TenderlyResult := { gasUsed := "0x5208", status := true, trace := [call0] }

/-- A concrete explorer internal transaction, distinct from the trace
calls. -/
def itxE : InternalTx :=
  { fromAddr := "0xcc", toAddr := "0xdd", value := some "5", type := some "call"
    gas := none, gasUsed := none, input := none, output := none, error := none
    isError := none }

/-- A fully successful environment: the mandatory fetch succeeds, the
simulation trace exists, the explorer list is non-empty, every collaborator
answers. -/
def baseEnv : Env :=
  { rpcTx := some tx0
    rpcErrMsg := "boom"
    useTenderly := true
    tenderlyResult := some trace0
    etherscanInternalTxs := [itxE]
    tokenSymbol := fun _ => none
    tokenName := fun _ => none
    tokenDecimals := fun _ => none
    enrichThrows := fun _ => false
    addrLabel := fun _ => none
    addrIsContract := fun _ => false
    addrAbi := fun _ => none
    addrSource := fun _ => none
    llmExplain := some "trace explained"
    explainErrMsg := "x"
    llmDraft := some "1. step one"
    draftErrMsg := "llm down"
    enableVerification := true
    llmVerify := some "OK" }

/-- A syntactically valid transaction hash (`0x` plus 64 hex characters). -/
def hash64 : String :=
  "0xaaaaaaaaaaaaaaaaaaaaaaaaaaaaaaaaaaaaaaaaaaaaaaaaaaaaaaaaaaaaaaaa"

/-- A hash that passes the length/0x guard but is not hexadecimal. -/
def badHash : String :=
  "0xzzzzzzzzzzzzzzzzzzzzzzzzzzzzzzzzzzzzzzzzzzzzzzzzzzzzzzzzzzzzzzzz"

/-- A state whose draft is the empty string (claim C8). -/
def s8 : AnalysisState :=
  { initState hash64 with rawTx := some tx0, draftExplanation := some "" }

/-- The same state with a non-empty draft. -/
def s8b : AnalysisState := { s8 with draftExplanation := some "analysis text" }

/-- `baseEnv` with verification statically disabled. -/
def env8 : Env := { baseEnv with enableVerification := false }

/-- `baseEnv` where the per-address enrichment lookup of `0xbb` throws. -/
def env6 : Env := { baseEnv with enrichThrows := fun a => a = "0xbb" }

/-- A state entering the call-trace enrichment stage with `trace0`. -/
def s6 : AnalysisState :=
  { initState hash64 with rawTx := some tx0, tenderlyCallTrace := some trace0 }

/-- The progress-event trace of a fully successful run of the full pipeline
under `baseEnv`. -/
def fullRunTrace : List Event :=
  [.rpc_done, .etherscan_start, .tenderly_start, .tenderly_done, .etherscan_done,
   .calltrace_enrich_start, .calltrace_enrich_done,
   .calltrace_explain_start, .calltrace_explain_done,
   .draft_start, .draft_done, .verify_start, .verify_done, .done]

/- ------------------------------------------------------------------
   Theorems
   ------------------------------------------------------------------ -/

theorem attachTop_nil (sh : Shape) : attachTop [] sh = [] := rfl

theorem attachTop_cons (d2 : Nat) (cs2 : List Shape) (st : List StackEntry) (sh : Shape) :
    attachTop ((d2, cs2) :: st) sh = (d2, cs2 ++ [sh]) :: st := rfl

theorem collapse_nil (d : Nat) : collapse [] d = [] := by
  rw [collapse]

theorem collapse_cons (dtop : Nat) (cs : List Shape) (st : List StackEntry) (d : Nat) :
    collapse ((dtop, cs) :: st) d =
      if d ≤ dtop then collapse (attachTop st (Shape.node cs)) d
      else (dtop, cs) :: st := by
  rw [collapse]

theorem openSpine_eq (cs : List Shape) (d : Nat) :
    openSpine (.node cs) d =
      match cs.getLast? with
      | none => [(d, [])]
      | some lastc => openSpine lastc (d + 1) ++ [(d, cs.dropLast)] := by
  conv_lhs => unfold openSpine
  split <;> rename_i hsp <;> rw [hsp]

theorem closeAll_cons (dtop : Nat) (cs : List Shape) (st : List StackEntry) :
    closeAll ((dtop, cs) :: st) =
      match st with
      | [] => some (Shape.node cs)
      | _ :: _ => closeAll (attachTop st (Shape.node cs)) := by
  rw [closeAll.eq_def]
  cases st <;> rfl

theorem collapse_lt (st : List StackEntry) (d : Nat)
    (h : ∀ p ∈ st, p.1 < d) : collapse st d = st := by
  match st with
  | [] => exact collapse_nil d
  | (dtop, cs) :: st2 =>
    have hd : dtop < d := h (dtop, cs) (by simp)
    rw [collapse_cons]
    simp [Nat.not_le.mpr hd]

theorem collapse_openSpine (s : Shape) (ds : Nat) :
    ∀ d tail, d ≤ ds →
      collapse (openSpine s ds ++ tail) d = collapse (attachTop tail s) d := by
  induction s, ds using openSpine.induct with
  | case1 cs d hnone =>
    intro d2 tail hle
    have hcs : cs = [] := by
      cases cs with
      | nil => rfl
      | cons a l => simp [List.getLast?] at hnone
    subst hcs
    unfold openSpine
    simp only [List.getLast?, List.singleton_append]
    rw [collapse_cons, if_pos hle]
  | case2 cs d lastc hsome ih =>
    intro d2 tail hle
    unfold openSpine
    rw [hsome]
    simp only [List.append_assoc, List.singleton_append]
    rw [ih d2 ((d, cs.dropLast) :: tail) (Nat.le_succ_of_le hle)]
    rw [attachTop_cons]
    rw [List.dropLast_append_getLast? lastc hsome]
    rw [collapse_cons, if_pos hle]

theorem closeAll_openSpine (s : Shape) (ds : Nat) :
    ∀ tail, closeAll (openSpine s ds ++ tail) =
      match tail with
      | [] => some s
      | _ :: _ => closeAll (attachTop tail s) := by
  induction s, ds using openSpine.induct with
  | case1 cs d hnone =>
    intro tail
    have hcs : cs = [] := by
      cases cs with
      | nil => rfl
      | cons a l => simp [List.getLast?] at hnone
    subst hcs
    unfold openSpine
    simp only [List.getLast?, List.singleton_append]
    rw [closeAll_cons]
  | case2 cs d lastc hsome ih =>
    intro tail
    unfold openSpine
    rw [hsome]
    simp only [List.append_assoc, List.singleton_append]
    rw [ih ((d, cs.dropLast) :: tail)]
    rw [attachTop_cons]
    rw [List.dropLast_append_getLast? lastc hsome]
    rw [closeAll_cons]

theorem stepEntry_eq (st : List StackEntry) (d : Nat) :
    stepEntry st d = (d, []) :: collapse st d := rfl

mutual
theorem foldl_depthSeq (s : Shape) (d : Nat) (st : List StackEntry)
    (hst : ∀ p ∈ st, p.1 < d) :
    (depthSeq s d).foldl stepEntry st = openSpine s d ++ st := by
  match s with
  | .node cs =>
    rw [depthSeq]
    rw [List.foldl_cons, stepEntry_eq, collapse_lt st d hst]
    rw [foldl_depthSeqs cs d [] st hst]
    rw [openSpine_eq]
    match h : cs.getLast? with
    | none => simp
    | some lastc => simp

theorem foldl_depthSeqs (cs : List Shape) (d : Nat) (acc : List Shape)
    (st : List StackEntry) (hst : ∀ p ∈ st, p.1 < d) :
    (depthSeqs cs (d + 1)).foldl stepEntry ((d, acc) :: st) =
      match cs.getLast? with
      | none => (d, acc) :: st
      | some lastc => openSpine lastc (d + 1) ++ (d, acc ++ cs.dropLast) :: st := by
  match cs with
  | [] => rw [depthSeqs]; rfl
  | c :: rest =>
    rw [depthSeqs, List.foldl_append]
    have hst2 : ∀ p ∈ (d, acc) :: st, p.1 < d + 1 := by
      intro p hp
      rcases List.mem_cons.mp hp with h1 | h2
      · subst h1; exact Nat.lt_succ_self d
      · exact Nat.lt_succ_of_lt (hst p h2)
    rw [foldl_depthSeq c (d + 1) ((d, acc) :: st) hst2]
    match rest with
    | [] =>
      rw [depthSeqs]
      simp [List.getLast?]
    | c2 :: rest2 =>
      have hmid : ∀ l : List Nat,
          ((d + 1) :: l).foldl stepEntry (openSpine c (d + 1) ++ (d, acc) :: st) =
          ((d + 1) :: l).foldl stepEntry ((d, acc ++ [c]) :: st) := by
        intro l
        rw [List.foldl_cons, List.foldl_cons, stepEntry_eq, stepEntry_eq]
        rw [collapse_openSpine c (d + 1) (d + 1) ((d, acc) :: st) (Nat.le_refl _)]
        rw [attachTop_cons]
      have hshape : depthSeqs (c2 :: rest2) (d + 1) =
          (d + 1) :: (depthSeqs (match c2 with | .node cs2 => cs2) (d + 1 + 1) ++
            depthSeqs rest2 (d + 1)) := by
        match c2 with
        | .node cs2 =>
          rw [depthSeqs, depthSeq]
          simp
      rw [hshape, hmid, ← hshape]
      rw [foldl_depthSeqs (c2 :: rest2) d (acc ++ [c]) st hst]
      rw [List.getLast?_cons_cons]
      match h2 : (c2 :: rest2).getLast? with
      | none => simp [List.getLast?_eq_none_iff] at h2
      | some lst =>
        rw [List.dropLast_cons₂]
        rw [List.append_cons acc c ((c2 :: rest2).dropLast)]
end

theorem rebuildShape_depthSeq (s : Shape) : rebuildShape (depthSeq s 0) = some s := by
  unfold rebuildShape
  rw [foldl_depthSeq s 0 [] (by simp)]
  rw [List.append_nil]
  have h := closeAll_openSpine s 0 []
  rw [List.append_nil] at h
  exact h

mutual
theorem preorder_length (c : CallTrace) (d : Nat) :
    (preorder c d).length = c.size := by
  match c with
  | .mk t f toA v g gu inp o e cs =>
    rw [preorder, CallTrace.size]
    simp [preorderList_length cs (d + 1)]
    omega

theorem preorderList_length (cs : List CallTrace) (d : Nat) :
    (preorderList cs d).length = CallTrace.sizeList cs := by
  match cs with
  | [] => rw [preorderList, CallTrace.sizeList]; rfl
  | c :: rest =>
    rw [preorderList, CallTrace.sizeList]
    simp [preorder_length c d, preorderList_length rest d]
end

mutual
theorem flatten_spec (c : CallTrace) (d n : Nat) :
    flattenCallTrace c d n =
      (List.zipWith entryAt (preorder c d) (List.range' n (preorder c d).length),
       n + (preorder c d).length) := by
  match c with
  | .mk t f toA v g gu inp o e cs =>
    rw [flattenCallTrace, preorder]
    rw [flatten_spec_list cs (d + 1) (n + 1)]
    simp only [List.length_cons, List.range'_succ, List.zipWith_cons_cons]
    rw [Prod.mk.injEq]
    exact ⟨rfl, by omega⟩

theorem flatten_spec_list (cs : List CallTrace) (d n : Nat) :
    flattenCallTraceList cs d n =
      (List.zipWith entryAt (preorderList cs d) (List.range' n (preorderList cs d).length),
       n + (preorderList cs d).length) := by
  match cs with
  | [] => rw [flattenCallTraceList, preorderList]; rfl
  | c :: rest =>
    rw [flattenCallTraceList, preorderList]
    rw [flatten_spec c d n, flatten_spec_list rest d (n + (preorder c d).length)]
    simp only [List.length_append]
    have hr : List.range' n ((preorder c d).length + (preorderList rest d).length) =
        List.range' n (preorder c d).length ++
          List.range' (n + (preorder c d).length) (preorderList rest d).length := by
      have h0 := (List.range'_append n (preorder c d).length (preorderList rest d).length 1).symm
      rw [Nat.one_mul] at h0
      rw [Nat.add_comm (preorderList rest d).length (preorder c d).length] at h0
      exact h0
    rw [hr]
    rw [List.zipWith_append _ _ _ _ _ (by simp)]
    rw [Prod.mk.injEq]
    exact ⟨rfl, by omega⟩
end

theorem zipWith_entryAt_index (ps : List (Nat × CallTrace)) (idxs : List Nat)
    (h : ps.length = idxs.length) :
    (List.zipWith entryAt ps idxs).map (fun e => e.index) = idxs := by
  induction ps generalizing idxs with
  | nil =>
    cases idxs with
    | nil => rfl
    | cons i is => simp at h
  | cons p ps ih =>
    cases idxs with
    | nil => simp at h
    | cons i is =>
      simp only [List.zipWith_cons_cons, List.map_cons]
      rw [ih is (by simpa using h)]
      obtain ⟨pd, pc⟩ := p
      cases pc
      rfl

theorem zipWith_entryAt_depth (ps : List (Nat × CallTrace)) (idxs : List Nat)
    (h : ps.length = idxs.length) :
    (List.zipWith entryAt ps idxs).map (fun e => e.depth) = ps.map Prod.fst := by
  induction ps generalizing idxs with
  | nil => rfl
  | cons p ps ih =>
    cases idxs with
    | nil => simp at h
    | cons i is =>
      simp only [List.zipWith_cons_cons, List.map_cons]
      rw [ih is (by simpa using h)]
      obtain ⟨pd, pc⟩ := p
      cases pc
      rfl

mutual
theorem preorder_fst (c : CallTrace) (d : Nat) :
    (preorder c d).map Prod.fst = depthSeq (shapeOf c) d := by
  match c with
  | .mk t f toA v g gu inp o e cs =>
    rw [preorder, shapeOf, depthSeq]
    simp only [List.map_cons]
    rw [preorderList_fst cs (d + 1)]

theorem preorderList_fst (cs : List CallTrace) (d : Nat) :
    (preorderList cs d).map Prod.fst = depthSeqs (shapeOfList cs) d := by
  match cs with
  | [] => rw [preorderList, shapeOfList, depthSeqs]; rfl
  | c :: rest =>
    rw [preorderList, shapeOfList, depthSeqs]
    simp only [List.map_append]
    rw [preorder_fst c d, preorderList_fst rest d]
end

theorem wrapInternalTxs_length (txs : List InternalTx) (i : Nat) :
    (wrapInternalTxs txs i).length = txs.length := by
  induction txs generalizing i with
  | nil => rfl
  | cons t rest ih => simp [wrapInternalTxs, ih]

theorem wrapInternalTxs_indices (txs : List InternalTx) (i : Nat) :
    (wrapInternalTxs txs i).map (fun e => e.index) = List.range' i txs.length := by
  induction txs generalizing i with
  | nil => rfl
  | cons t rest ih =>
    simp only [wrapInternalTxs, List.map_cons, List.length_cons, List.range'_succ]
    rw [ih (i + 1)]

theorem wrapInternalTxs_depth (txs : List InternalTx) (i : Nat) :
    ∀ e ∈ wrapInternalTxs txs i, e.depth = 0 := by
  induction txs generalizing i with
  | nil => intro e he; simp [wrapInternalTxs] at he
  | cons t rest ih =>
    intro e he
    rw [wrapInternalTxs] at he
    rcases List.mem_cons.mp he with h1 | h2
    · subst h1; rfl
    · exact ih (i + 1) e h2

/-- Claim C10: `extractTokenFlows` returns exactly one flow per receipt log
whose first topic is the ERC-20 Transfer signature hash and which carries at
least three topics, in log order; each flow takes its token from the
emitting contract address, its from/to from the last 20 bytes of topics 1
and 2, and its amount is the raw data field unchanged; every other log
contributes no flow. -/
theorem C10_extractTokenFlows_spec (logs : List Log) :
    extractTokenFlows logs = (logs.filter isTransferLog).map mkTransferFlow := by
  induction logs with
  | nil => rfl
  | cons log rest ih =>
    by_cases h : (log.topics.headD "" = TRANSFER_TOPIC ∧ 3 ≤ log.topics.length)
    · rw [extractTokenFlows, if_pos h, ih]
      rw [List.filter_cons_of_pos (by simp only [isTransferLog, decide_eq_true_eq]; exact h)]
      rfl
    · rw [extractTokenFlows, if_neg h, ih]
      rw [List.filter_cons_of_neg (by simp only [isTransferLog, decide_eq_true_eq]; exact h)]

/-- Claim C3: flattening a call tree with N nodes yields exactly N entries,
ordered by pre-order depth-first traversal (the zipWith equation), with
indices 0..N-1 strictly increasing (they form `List.range N`) and each
entry's depth equal to the length of the path from the root to its node (the
pre-order depth sequence); when no tree exists, the flat internal-transaction
list is wrapped as uniform depth-0 entries indexed 0..N-1. -/
theorem C3_flatten_shape (c : CallTrace) (txs : List InternalTx) :
    ((flattenCallTrace c 0 0).1).length = c.size ∧
    ((flattenCallTrace c 0 0).1).map (fun e => e.index) = List.range c.size ∧
    ((flattenCallTrace c 0 0).1).map (fun e => e.depth) = depthSeq (shapeOf c) 0 ∧
    (flattenCallTrace c 0 0).1 =
      List.zipWith entryAt (preorder c 0) (List.range' 0 c.size) ∧
    (wrapInternalTxs txs 0).length = txs.length ∧
    (wrapInternalTxs txs 0).map (fun e => e.index) = List.range txs.length ∧
    (∀ e ∈ wrapInternalTxs txs 0, e.depth = 0) := by
  have hs := flatten_spec c 0 0
  have hlen := preorder_length c 0
  refine ⟨?_, ?_, ?_, ?_, wrapInternalTxs_length txs 0, ?_, wrapInternalTxs_depth txs 0⟩
  · rw [hs]
    simp [hlen]
  · rw [hs]
    simp only []
    rw [zipWith_entryAt_index _ _ (by simp), hlen, List.range_eq_range']
  · rw [hs]
    simp only []
    rw [zipWith_entryAt_depth _ _ (by simp), preorder_fst c 0]
  · rw [hs, hlen]
  · rw [wrapInternalTxs_indices txs 0, List.range_eq_range']

/-- Claim C4: rebuilding a tree shape from the depth sequence produced by
flattening — the stack-based rebuild that attaches each entry as a child of
the nearest preceding entry of smaller depth — yields exactly the shape of
the source tree, for every call tree.  (The rebuild consumes the depths of
the (depth, index) sequence; the indices carry no extra shape
information.) -/
theorem C4_flatten_rebuild_identity (c : CallTrace) :
    rebuildShape (((flattenCallTrace c 0 0).1).map (fun e => e.depth)) =
      some (shapeOf c) := by
  rw [flatten_spec c 0 0]
  simp only []
  rw [zipWith_entryAt_depth _ _ (by simp)]
  rw [preorder_fst c 0]
  exact rebuildShape_depthSeq (shapeOf c)

theorem charOfNat_toNat (n : Nat) (h : n < 128) : (Char.ofNat n).toNat = n := by
  unfold Char.ofNat Char.toNat
  rw [dif_pos (by left; omega)]
  unfold Char.ofNatAux
  simp [UInt32.toNat, BitVec.toNat_ofNatLt]

theorem jsCharToLower_toNat (c : Char) :
    (jsCharToLower c).toNat =
      if 65 ≤ c.toNat ∧ c.toNat ≤ 90 then c.toNat + 32 else c.toNat := by
  unfold jsCharToLower
  split
  · rename_i h
    exact charOfNat_toNat _ (by omega)
  · rfl

theorem jsCharToLower_idem (c : Char) :
    jsCharToLower (jsCharToLower c) = jsCharToLower c := by
  by_cases h : 65 ≤ c.toNat ∧ c.toNat ≤ 90
  · have h1 : (jsCharToLower c).toNat = c.toNat + 32 := by
      rw [jsCharToLower_toNat, if_pos h]
    have h2 : ¬(65 ≤ (jsCharToLower c).toNat ∧ (jsCharToLower c).toNat ≤ 90) := by
      rw [h1]; omega
    rw [jsCharToLower, if_neg h2]
  · have e : jsCharToLower c = c := by rw [jsCharToLower, if_neg h]
    rw [e]
    exact e

theorem jsToLower_idem (s : String) : jsToLower (jsToLower s) = jsToLower s := by
  simp only [jsToLower, List.map_map]
  congr 1
  exact List.map_congr_left (fun a _ => jsCharToLower_idem a)

theorem dedupFirst_go_mem (l : List String) :
    ∀ seen x, x ∈ dedupFirst.go seen l → x ∈ l := by
  induction l with
  | nil => intro seen x hx; simp [dedupFirst.go] at hx
  | cons a rest ih =>
    intro seen x hx
    rw [dedupFirst.go] at hx
    by_cases hmem : a ∈ seen
    · rw [if_pos hmem] at hx
      exact List.mem_cons_of_mem a (ih seen x hx)
    · rw [if_neg hmem] at hx
      rcases List.mem_cons.mp hx with h1 | h2
      · subst h1; exact List.mem_cons_self x rest
      · exact List.mem_cons_of_mem a (ih (a :: seen) x h2)

theorem dedupFirst_go_nodup (l : List String) :
    ∀ seen, (dedupFirst.go seen l).Nodup ∧ (∀ x ∈ dedupFirst.go seen l, x ∉ seen) := by
  induction l with
  | nil =>
    intro seen
    exact ⟨by simp [dedupFirst.go], by intro x hx; simp [dedupFirst.go] at hx⟩
  | cons a rest ih =>
    intro seen
    rw [dedupFirst.go]
    by_cases hmem : a ∈ seen
    · rw [if_pos hmem]
      exact ih seen
    · rw [if_neg hmem]
      obtain ⟨hnd, hout⟩ := ih (a :: seen)
      constructor
      · refine List.nodup_cons.mpr ⟨?_, hnd⟩
        intro hcon
        exact (hout a hcon) (List.mem_cons_self a seen)
      · intro x hx
        rcases List.mem_cons.mp hx with h1 | h2
        · subst h1; exact hmem
        · intro hxs
          exact (hout x h2) (List.mem_cons_of_mem a hxs)

theorem dedupFirst_mem (l : List String) (x : String) (h : x ∈ dedupFirst l) : x ∈ l :=
  dedupFirst_go_mem l [] x h

theorem dedupFirst_nodup (l : List String) : (dedupFirst l).Nodup :=
  (dedupFirst_go_nodup l []).1

theorem mem_extractUnique_lower (calls : List (String × String)) (a : String)
    (h : a ∈ extractUniqueAddressesFromCalls calls) : jsToLower a = a := by
  unfold extractUniqueAddressesFromCalls at h
  have h2 := dedupFirst_mem _ _ h
  obtain ⟨c, _, hmem⟩ := List.mem_flatMap.mp h2
  rcases List.mem_append.mp hmem with h3 | h3
  · by_cases hc : c.1 ≠ ""
    · rw [if_pos hc] at h3
      rcases List.mem_singleton.mp h3 with h4
      rw [h4]; exact jsToLower_idem c.1
    · rw [if_neg hc] at h3
      simp at h3
  · by_cases hc : c.2 ≠ ""
    · rw [if_pos hc] at h3
      rcases List.mem_singleton.mp h3 with h4
      rw [h4]; exact jsToLower_idem c.2
    · rw [if_neg hc] at h3
      simp at h3

theorem lookup_map_self {β : Type} (f : String → β) (l : List String) (a : String)
    (hnd : l.Nodup) (ha : a ∈ l) :
    (l.map (fun x => (x, f x))).lookup a = some (f a) := by
  induction l with
  | nil => simp at ha
  | cons b rest ih =>
    obtain ⟨hb, hrest⟩ := List.nodup_cons.mp hnd
    by_cases hab : a = b
    · subst hab
      simp [List.lookup]
    · have ha2 : a ∈ rest := by
        rcases List.mem_cons.mp ha with h1 | h2
        · exact absurd h1 hab
        · exact h2
      have hne : (a == b) = false := beq_eq_false_iff_ne.mpr hab
      simp only [List.map_cons, List.lookup, hne]
      exact ih hrest ha2

theorem enrichRecordOf_throws (env : Env) (a : String)
    (h : env.enrichThrows a = true) : enrichRecordOf env a = unknownSentinel := by
  unfold enrichRecordOf
  rw [if_pos h]

theorem jsOr_ne_empty (o : Option String) (d : String) (hd : d ≠ "") :
    jsOr o d ≠ "" := by
  match o with
  | none => exact hd
  | some s =>
    show (if s = "" then d else s) ≠ ""
    by_cases hs : s = ""
    · rw [if_pos hs]; exact hd
    · rw [if_neg hs]; exact hs

theorem append_ne_empty (a b : String) (ha : a ≠ "") : a ++ b ≠ "" := by
  intro h
  apply ha
  have hd := congrArg String.data h
  simp only [String.data_append] at hd
  have h1 : a.data = [] := (List.append_eq_nil.mp hd).1
  exact String.ext (by simpa using h1)

/-- Claim C6: in every run of the call-trace enrichment stage, the produced
enrichment map has at most `MAX_ADDRESSES_TO_ENRICH = 20` entries; every
address of the capped candidate set (the first 20 unique lower-cased from/to
addresses of the calls) is present as a key, bound to the populated record
of that address, which is the explicit unknown sentinel whenever its lookup
failed; and every binding of the map is a populated record or the
sentinel. -/
theorem C6_enrichment_invariant (env : Env) (s : AnalysisState)
    (h1 : optTruthy s.error = false) (h2 : s.rawTx.isSome) :
    ∃ m, (callTraceEnrichNode env s).1.callTraceEnrichment = some m ∧
      m.length ≤ MAX_ADDRESSES_TO_ENRICH ∧
      (∀ a ∈ cappedCandidates s, m.lookup a = some (enrichRecordOf env a)) ∧
      (∀ a ∈ cappedCandidates s, env.enrichThrows a = true →
        m.lookup a = some unknownSentinel) ∧
      (∀ p ∈ m, p.2 = enrichRecordOf env p.1 ∨ p.2 = unknownSentinel) := by
  have hg : ¬(optTruthy s.error = true ∨ s.rawTx.isNone = true) := by
    rintro (hc | hc)
    · rw [h1] at hc; exact Bool.false_ne_true hc
    · cases hx : s.rawTx with
      | none => rw [hx] at h2; simp at h2
      | some t => rw [hx] at hc; simp at hc
  unfold callTraceEnrichNode
  rw [if_neg hg]
  by_cases hz : (candidateCalls s).length = 0
  · rw [if_pos hz]
    have hcalls : candidateCalls s = [] := List.length_eq_zero.mp hz
    have hcap : cappedCandidates s = [] := by
      unfold cappedCandidates extractUniqueAddressesFromCalls
      rw [hcalls]
      rfl
    refine ⟨[], by simp, by simp [MAX_ADDRESSES_TO_ENRICH], ?_, ?_, by simp⟩
    · intro a ha; rw [hcap] at ha; simp at ha
    · intro a ha; rw [hcap] at ha; simp at ha
  · rw [if_neg hz]
    have hfix : ∀ a ∈ cappedCandidates s, jsToLower a = a := by
      intro a ha
      exact mem_extractUnique_lower (candidateCalls s) a
        (List.take_subset _ _ ha)
    have hnd : (cappedCandidates s).Nodup :=
      (dedupFirst_nodup _).sublist (List.take_sublist _ _)
    have hmap : (cappedCandidates s).map (fun a => (jsToLower a, enrichRecordOf env a)) =
        (cappedCandidates s).map (fun a => (a, enrichRecordOf env a)) :=
      List.map_congr_left (fun a ha => by rw [hfix a ha])
    refine ⟨_, rfl, ?_, ?_, ?_, ?_⟩
    · rw [List.length_map]
      unfold cappedCandidates
      exact List.length_take_le _ _
    · intro a ha
      rw [hmap]
      exact lookup_map_self _ _ _ hnd ha
    · intro a ha hthrow
      rw [hmap, lookup_map_self _ _ _ hnd ha, enrichRecordOf_throws env a hthrow]
    · intro p hp
      rw [hmap] at hp
      obtain ⟨a, _, hpa⟩ := List.mem_map.mp hp
      left
      rw [← hpa]

theorem C6_enrichment_witness :
    (optTruthy s6.error = false ∧ s6.rawTx.isSome = true) ∧
    ∃ m, (callTraceEnrichNode env6 s6).1.callTraceEnrichment = some m ∧
      m.length ≤ MAX_ADDRESSES_TO_ENRICH ∧
      (∀ a ∈ cappedCandidates s6, m.lookup a = some (enrichRecordOf env6 a)) ∧
      (∀ a ∈ cappedCandidates s6, env6.enrichThrows a = true →
        m.lookup a = some unknownSentinel) ∧
      (∀ p ∈ m, p.2 = enrichRecordOf env6 p.1 ∨ p.2 = unknownSentinel) :=
  ⟨⟨rfl, rfl⟩, C6_enrichment_invariant env6 s6 rfl rfl⟩

/-- Claim C7 counterexample: a hash of 64 `z` characters after `0x` does not
match the hexadecimal transaction-hash format, yet the guard accepts it and
the analysis (with its network input/output) is started. -/
theorem C7_counterexample :
    specTxHashFormat badHash = false ∧ chatTxAction badHash = ChatAction.analyze := by
  constructor
  · decide
  · decide

/-- Claim C7 (amended): every transaction hash that does not start with `0x`
or whose length is not 66 is rejected with an input error before any network
input/output; the hexadecimal-ness of the remaining 64 characters is not
checked. -/
theorem C7_amended_reject (h : String)
    (hbad : ¬(jsStartsWith h "0x" ∧ h.length = 66)) :
    chatTxAction h = ChatAction.rejectInput := by
  unfold chatTxAction
  rw [if_pos hbad]

theorem C7_amended_witness :
    ¬(jsStartsWith "xyz" "0x" ∧ "xyz".length = 66) ∧
    chatTxAction "xyz" = ChatAction.rejectInput :=
  ⟨by decide, C7_amended_reject "xyz" (by decide)⟩

/-- Claim C8 counterexample: with verification statically disabled, a state
whose draft is the empty string makes `verifyNode` return an empty update —
`verificationResult` stays unset instead of becoming the trivial pass. -/
theorem C8_counterexample :
    env8.enableVerification = false ∧
    (verifyNode env8 s8).1.verificationResult ≠
      some { passed := true, issues := [] } := by
  constructor
  · rfl
  · decide

/-- Claim C8 (amended): with verification statically disabled, `verifyNode`
returns `{passed: true, issues: []}` for every state having no recorded
error, a raw transaction, and a non-empty draft; for every other state it
returns an empty update; in both cases no external call is performed (the
result does not depend on the collaborator reply). -/
theorem C8_amended (env : Env) (s : AnalysisState)
    (hdis : env.enableVerification = false) :
    ((optTruthy s.error = false ∧ optTruthy s.draftExplanation ∧ s.rawTx.isSome) →
      verifyNode env s =
        ({ s with verificationResult := some { passed := true, issues := [] } }, [])) ∧
    (¬(optTruthy s.error = false ∧ optTruthy s.draftExplanation ∧ s.rawTx.isSome) →
      verifyNode env s = (s, [])) ∧
    (∀ r, verifyNode { env with llmVerify := r } s = verifyNode env s) := by
  refine ⟨?_, ?_, ?_⟩
  · intro hg
    unfold verifyNode
    rw [if_pos hg, if_pos hdis]
  · intro hg
    unfold verifyNode
    rw [if_neg hg]
  · intro r
    by_cases hg : (optTruthy s.error = false ∧ optTruthy s.draftExplanation ∧ s.rawTx.isSome)
    · unfold verifyNode
      rw [if_pos hg, if_pos hg, if_pos hdis, if_pos hdis]
    · unfold verifyNode
      rw [if_neg hg, if_neg hg]

theorem C8_amended_witness :
    env8.enableVerification = false ∧
    (optTruthy s8b.error = false ∧ optTruthy s8b.draftExplanation ∧ s8b.rawTx.isSome) ∧
    verifyNode env8 s8b =
      ({ s8b with verificationResult := some { passed := true, issues := [] } }, []) :=
  ⟨rfl, ⟨rfl, by decide, rfl⟩,
    (C8_amended env8 s8b rfl).1 ⟨rfl, by decide, rfl⟩⟩

/-- Claim C2: the Extract stage stores as its unified internal-transaction
view the fusion of the trace-derived call list with the explorer list, where
the fusion equals the trace-derived list whenever that list is non-empty and
the explorer list verbatim otherwise — never a partial merge of the two. -/
theorem C2_fusion (env : Env) (s : AnalysisState) (tx : Transaction)
    (h : env.rpcTx = some tx) :
    (extractNode env s).1.internalTxs =
      some ((fuseInternalTxs
        (traceDerivedCalls (if env.useTenderly then env.tenderlyResult else none))
        env.etherscanInternalTxs).map formatInternalTx) ∧
    (∀ tl el : List InternalTx, tl ≠ [] → fuseInternalTxs tl el = tl) ∧
    (∀ tl el : List InternalTx, tl = [] → fuseInternalTxs tl el = el) ∧
    (∀ tl el : List InternalTx,
      fuseInternalTxs tl el = tl ∨ fuseInternalTxs tl el = el) := by
  refine ⟨?_, ?_, ?_, ?_⟩
  · unfold extractNode
    rw [h]
  · intro tl el htl
    unfold fuseInternalTxs
    rw [if_pos (List.length_pos.mpr htl)]
  · intro tl el htl
    subst htl
    rfl
  · intro tl el
    unfold fuseInternalTxs
    by_cases htl : 0 < tl.length
    · rw [if_pos htl]; left; rfl
    · rw [if_neg htl]; right; rfl

theorem C2_fusion_witness :
    baseEnv.rpcTx = some tx0 ∧
    ((extractNode baseEnv (initState hash64)).1.internalTxs =
      some ((fuseInternalTxs
        (traceDerivedCalls (if baseEnv.useTenderly then baseEnv.tenderlyResult else none))
        baseEnv.etherscanInternalTxs).map formatInternalTx) ∧
    (∀ tl el : List InternalTx, tl ≠ [] → fuseInternalTxs tl el = tl) ∧
    (∀ tl el : List InternalTx, tl = [] → fuseInternalTxs tl el = el) ∧
    (∀ tl el : List InternalTx,
      fuseInternalTxs tl el = tl ∨ fuseInternalTxs tl el = el)) :=
  ⟨rfl, C2_fusion baseEnv (initState hash64) tx0 rfl⟩

/-- Claim C9 (code-bug exhibit): in a run where the fused view is taken from
a non-empty simulation trace, the Extract stage stores the formatted fused
(trace-derived) list in the `etherscanInternalTxs` field — the
explorer-derived internal-transaction list (here `[itxE]`) is NOT retained,
neither verbatim nor formatted, although the simulation trace itself is
retained. -/
theorem C9_explorer_list_not_retained :
    baseEnv.etherscanInternalTxs = [itxE] ∧
    (extractNode baseEnv (initState hash64)).1.tenderlyCallTrace.isSome = true ∧
    (extractNode baseEnv (initState hash64)).1.etherscanInternalTxs =
      some [formatInternalTx (tenderlyTxOfCall call0)] ∧
    (extractNode baseEnv (initState hash64)).1.etherscanInternalTxs ≠ some [itxE] ∧
    (extractNode baseEnv (initState hash64)).1.etherscanInternalTxs ≠
      some ([itxE].map formatInternalTx) := by
  refine ⟨rfl, ?_, ?_, ?_, ?_⟩ <;> decide

/-- Claim C5 (code-bug exhibit): the recorded trace of a fully successful
run (with the call-trace stages wired in as the spec and the repository
documentation describe).  The terminal `done` is emitted exactly once and
every completion event is preceded by its matching start event, but
`etherscan_done` is emitted AFTER `tenderly_done`, so the claimed chain
`rpc_done < etherscan_done < tenderly_done < ...` fails at that link while
every other link of the chain holds. -/
theorem C5_event_order_bug :
    (runAnalysisFull baseEnv hash64).map Prod.snd = some fullRunTrace ∧
    fullRunTrace.count Event.done = 1 ∧
    (eventBeforeB .etherscan_start .etherscan_done fullRunTrace = true ∧
     eventBeforeB .tenderly_start .tenderly_done fullRunTrace = true ∧
     eventBeforeB .calltrace_enrich_start .calltrace_enrich_done fullRunTrace = true ∧
     eventBeforeB .calltrace_explain_start .calltrace_explain_done fullRunTrace = true ∧
     eventBeforeB .draft_start .draft_done fullRunTrace = true ∧
     eventBeforeB .verify_start .verify_done fullRunTrace = true) ∧
    (eventBeforeB .rpc_done .etherscan_done fullRunTrace = true ∧
     eventBeforeB .tenderly_done .calltrace_enrich_done fullRunTrace = true ∧
     eventBeforeB .calltrace_enrich_done .calltrace_explain_done fullRunTrace = true ∧
     eventBeforeB .calltrace_explain_done .draft_done fullRunTrace = true ∧
     eventBeforeB .draft_done .verify_done fullRunTrace = true ∧
     eventBeforeB .verify_done .done fullRunTrace = true) ∧
    eventBeforeB .etherscan_done .tenderly_done fullRunTrace = false ∧
    eventBeforeB .tenderly_done .etherscan_done fullRunTrace = true := by
  refine ⟨?_, by decide, by decide, by decide, by decide, by decide⟩
  decide

theorem verifyNode_skip_error (env : Env) (s : AnalysisState)
    (h : optTruthy s.error = true) : verifyNode env s = (s, []) := by
  unfold verifyNode
  rw [if_neg]
  intro hc
  rw [h] at hc
  simp at hc

theorem outputNode_error_eq (s : AnalysisState) (h : optTruthy s.error = true) :
    outputNode s = some ({ s with finalReport := some (errorReportOf s) }, [.done]) := by
  unfold outputNode
  rw [if_pos h]

theorem optTruthy_some_true (x : String) (hx : x ≠ "") :
    optTruthy (some x) = true := by
  simp [optTruthy, strTruthy, hx]

theorem verifyNode_fields (env : Env) (s : AnalysisState) :
    ∃ v, (verifyNode env s).1 = { s with verificationResult := v } := by
  unfold verifyNode
  by_cases hg : (optTruthy s.error = false ∧ optTruthy s.draftExplanation ∧ s.rawTx.isSome)
  · rw [if_pos hg]
    by_cases hd : env.enableVerification = false
    · rw [if_pos hd]
      exact ⟨_, rfl⟩
    · rw [if_neg hd]
      match env.llmVerify with
      | none => exact ⟨_, rfl⟩
      | some reply => exact ⟨_, rfl⟩
  · rw [if_neg hg]
    exact ⟨s.verificationResult, rfl⟩

theorem extract_fail_eq (env : Env) (s : AnalysisState) (h : env.rpcTx = none) :
    extractNode env s =
      ({ s with error := some ("Failed to extract transaction data: " ++ env.rpcErrMsg) },
        []) := by
  unfold extractNode
  rw [h]

theorem extract_ok_error (env : Env) (s : AnalysisState) (tx : Transaction)
    (h : env.rpcTx = some tx) : (extractNode env s).1.error = s.error := by
  unfold extractNode
  rw [h]

theorem extract_ok_rawTx (env : Env) (s : AnalysisState) (tx : Transaction)
    (h : env.rpcTx = some tx) : (extractNode env s).1.rawTx = some tx := by
  unfold extractNode
  rw [h]

theorem draftNode_no_raw (env : Env) (s : AnalysisState) (h : s.rawTx = none) :
    draftNode env s =
      ({ s with error := some (jsOr s.error "No transaction data available") }, []) := by
  unfold draftNode
  rw [h]

theorem draftNode_ok (env : Env) (s : AnalysisState) (tx : Transaction)
    (hraw : s.rawTx = some tx) (herr : optTruthy s.error = false) :
    draftNode env s =
      match identifyMEVPattern tx (s.tokenFlows.getD []) with
      | none =>
        ({ s with error := some ("Failed to generate explanation: " ++
            "SyntaxError: Cannot convert string to a BigInt") }, [.draft_start])
      | some _ =>
        match env.llmDraft with
        | none =>
          ({ s with error := some ("Failed to generate explanation: " ++ env.draftErrMsg) },
            [.draft_start])
        | some text =>
          ({ s with draftExplanation := some text }, [.draft_start, .draft_done]) := by
  unfold draftNode
  rw [hraw]
  simp only []
  rw [if_neg (by rw [herr]; simp)]

theorem outputNode_ok (s : AnalysisState) (tx : Transaction) (p : MEVPattern)
    (herr : optTruthy s.error = false) (hraw : s.rawTx = some tx)
    (hid : identifyMEVPattern tx (s.tokenFlows.getD []) = some p) :
    outputNode s = some ({ s with finalReport := some ({
        summary := jsOr s.draftExplanation "No explanation generated"
        mevType := p.type
        steps := extractSteps (jsOr s.draftExplanation "")
        tokenFlows := s.tokenFlows.getD []
        technicalDetails := some
          { txHash := s.txHash
            blockNumber := s.rawTx.map (fun t => t.blockNumber)
            gasUsed := s.rawTx.map (fun t => t.gasUsed)
            fromAddr := s.rawTx.map (fun t => t.fromAddr)
            toAddr := s.rawTx.map (fun t => t.toAddr)
            mevConfidence := p.confidence }
        verification := s.verificationResult
        callTraceExplanation := s.callTraceExplanation
        tenderlyCallTrace := s.tenderlyCallTrace
        etherscanInternalTxs := s.etherscanInternalTxs } : FinalReport) }, [.done]) := by
  unfold outputNode
  rw [if_neg (by rw [herr]; simp)]
  rw [hraw]
  simp only []
  rw [hid]

/-- Claim C1: for every input whose transaction hash is syntactically valid,
the analysis pipeline returns (no exception escapes: the run is `some`) a
final report whose summary is a non-empty string (hence non-null); whenever
a fatal stage error was recorded, the summary is `"Error: "` followed by the
recorded error and the other fields are minimally populated: empty steps,
empty token flows, `unknown` pattern type. -/
theorem C1_report_always (env : Env) (txHash : String)
    (hvalid : specTxHashFormat txHash = true) :
    ∃ s evs r, runAnalysis env txHash = some (s, evs) ∧ s.finalReport = some r ∧
      r.summary ≠ "" ∧
      (optTruthy s.error = true →
        r.summary = "Error: " ++ s.error.getD "" ∧ r.steps = [] ∧
        r.tokenFlows = [] ∧ r.mevType = "unknown") := by
  obtain ⟨s1, evs1, hext⟩ : ∃ a b, extractNode env (initState txHash) = (a, b) :=
    ⟨_, _, rfl⟩
  unfold runAnalysis
  rw [hext]
  simp only []
  cases henv : env.rpcTx with
  | none =>
    have hs1 : s1 = { initState txHash with
        error := some ("Failed to extract transaction data: " ++ env.rpcErrMsg) } := by
      rw [extract_fail_eq env (initState txHash) henv] at hext
      injection hext with h1 h2
      exact h1.symm
    have hs1raw : s1.rawTx = none := by rw [hs1]; rfl
    rw [draftNode_no_raw env s1 hs1raw]
    simp only []
    have hM : jsOr s1.error "No transaction data available" ≠ "" :=
      jsOr_ne_empty _ _ (by decide)
    have hMt : optTruthy (some (jsOr s1.error "No transaction data available")) = true :=
      optTruthy_some_true _ hM
    rw [verifyNode_skip_error env _ hMt]
    simp only []
    rw [outputNode_error_eq _ hMt]
    refine ⟨_, _, _, rfl, rfl, ?_, fun _ => ⟨rfl, rfl, rfl, rfl⟩⟩
    exact append_ne_empty _ _ (by decide)
  | some tx =>
    have hs1err : s1.error = none := by
      have h1 := extract_ok_error env (initState txHash) tx henv
      rw [hext] at h1
      exact h1
    have hs1raw : s1.rawTx = some tx := by
      have h1 := extract_ok_rawTx env (initState txHash) tx henv
      rw [hext] at h1
      exact h1
    have hs1errT : optTruthy s1.error = false := by rw [hs1err]; rfl
    rw [draftNode_ok env s1 tx hs1raw hs1errT]
    cases hid : identifyMEVPattern tx (s1.tokenFlows.getD []) with
    | none =>
      simp only []
      have hMt : optTruthy (some ("Failed to generate explanation: " ++
          "SyntaxError: Cannot convert string to a BigInt")) = true :=
        optTruthy_some_true _ (append_ne_empty _ _ (by decide))
      rw [verifyNode_skip_error env _ hMt]
      simp only []
      rw [outputNode_error_eq _ hMt]
      refine ⟨_, _, _, rfl, rfl, ?_, fun _ => ⟨rfl, rfl, rfl, rfl⟩⟩
      exact append_ne_empty _ _ (by decide)
    | some p =>
      cases hllm : env.llmDraft with
      | none =>
        simp only []
        have hMt : optTruthy (some ("Failed to generate explanation: " ++
            env.draftErrMsg)) = true :=
          optTruthy_some_true _ (append_ne_empty _ _ (by decide))
        rw [verifyNode_skip_error env _ hMt]
        simp only []
        rw [outputNode_error_eq _ hMt]
        refine ⟨_, _, _, rfl, rfl, ?_, fun _ => ⟨rfl, rfl, rfl, rfl⟩⟩
        exact append_ne_empty _ _ (by decide)
      | some text =>
        simp only []
        obtain ⟨v, hv⟩ := verifyNode_fields env { s1 with draftExplanation := some text }
        obtain ⟨s3, evs3, hver⟩ : ∃ a b,
            verifyNode env { s1 with draftExplanation := some text } = (a, b) :=
          ⟨_, _, rfl⟩
        rw [hver]
        simp only []
        have hv3 : s3 = (verifyNode env { s1 with draftExplanation := some text }).1 := by
          rw [hver]
        have herr3 : optTruthy s3.error = false := by rw [hv3, hv]; exact hs1errT
        have hraw3 : s3.rawTx = some tx := by rw [hv3, hv]; exact hs1raw
        have hid3 : identifyMEVPattern tx (s3.tokenFlows.getD []) = some p := by
          rw [hv3, hv]; exact hid
        rw [outputNode_ok s3 tx p herr3 hraw3 hid3]
        refine ⟨_, _, _, rfl, rfl, ?_, ?_⟩
        · exact jsOr_ne_empty _ _ (by decide)
        · intro hcon
          have hcon2 : optTruthy s3.error = true := hcon
          rw [herr3] at hcon2
          simp at hcon2

theorem C1_report_always_witness :
    specTxHashFormat hash64 = true ∧
    (∃ s evs r, runAnalysis baseEnv hash64 = some (s, evs) ∧ s.finalReport = some r ∧
      r.summary ≠ "" ∧
      (optTruthy s.error = true →
        r.summary = "Error: " ++ s.error.getD "" ∧ r.steps = [] ∧
        r.tokenFlows = [] ∧ r.mevType = "unknown")) :=
  ⟨by decide, C1_report_always baseEnv hash64 (by decide)⟩

end TXray
